import Mathlib

/-!
Verification of the change-detection and topic-routing core of the
`boomer_bot` notification relay (`src/boomer_bot.js`).

The development shallowly embeds the program's data model and operations:

* `Market` models an entity fetched from the upstream listings feed.
* `detectCategory` embeds the keyword classifier (lines 143–155).
* `fetchMarkets` embeds the fetch wrapper's error handling (lines 158–173).
* `monitorMarkets` embeds the poll-and-diff cycle (lines 176–194) as a pure
  state transformer on the seen-set / first-run state.
* `sendAlert` embeds the per-subscriber broadcast loop (lines 197–232),
  with delivery outcomes supplied as an oracle parameter.
* `getPref` / `setPref` / `togglePref` / `getUserPrefs` embed the
  JavaScript-object preference store and the `callback_query` toggle
  handler (lines 49–63 and 120–140).
-/

/-! ## Strings: JavaScript `includes` and `toLowerCase` -/

/-- `takeMatch pat hay` is true when `pat` is an initial segment of `hay`
(character-wise), as used by the naive substring scan below. -/
def takeMatch : List Char → List Char → Bool
  | [], _ => true
  | _ :: _, [] => false
  | a :: as, b :: bs => a == b && takeMatch as bs

/-- `inclList pat hay` scans every suffix of `hay` for `pat`: the semantics
of JavaScript `String.prototype.includes` on the underlying characters. -/
def inclList (pat : List Char) : List Char → Bool
  | [] => takeMatch pat []
  | b :: bs => takeMatch pat (b :: bs) || inclList pat bs

/-- `strIncludes s pat` models `s.includes(pat)` in JavaScript. -/
def strIncludes (s pat : String) : Bool :=
  inclList pat.toList s.toList

/-- `toLowerCase s` models `s.toLowerCase()` (ASCII case folding, which is
all the classifier's keyword set exercises). -/
def toLowerCase (s : String) : String :=
  ⟨s.toList.map Char.toLower⟩

/-! ## Data model -/

/-- One listed market from the upstream feed.  `question` is the primary
text; `group` and `tags` are optional metadata; `slug`, `title` and `id`
are carried but not consulted by classification. -/
structure Market where
  id : String
  question : String
  group : Option String
  tags : Option (List String)
  slug : Option String
  title : Option String
deriving DecidableEq, Repr

namespace CATEGORIES

def POLITICS : String := "Politics"

def CRYPTO : String := "Crypto"

def SPORTS : String := "Sports"

def BUSINESS : String := "Business"

def SCIENCE : String := "Science"

def POPCULTURE : String := "Pop Culture"

def NEWS : String := "News"

def OTHER : String := "Other"

end CATEGORIES

/-- The fixed 8-topic enumeration, in the order of the `CATEGORIES` object. -/
def allCategories : List String :=
  [CATEGORIES.POLITICS, CATEGORIES.CRYPTO, CATEGORIES.SPORTS,
   CATEGORIES.BUSINESS, CATEGORIES.SCIENCE, CATEGORIES.POPCULTURE,
   CATEGORIES.NEWS, CATEGORIES.OTHER]

/-! ## Classifier (`detectCategory`, lines 143–155)

The source builds
`(market.question + ' ' + (market.group || '') + ' ' + (market.tags || [])).toLowerCase()`;
concatenating a JavaScript array into a string joins its elements with
commas, which `String.intercalate ","` reproduces. -/

/-- The lowercased concatenated classification text of a market. -/
def marketText (m : Market) : String :=
  toLowerCase (m.question ++ " " ++ m.group.getD "" ++ " " ++
    String.intercalate "," (m.tags.getD []))

/-- The ordered keyword cascade of lines 146–152 applied to the prepared
text, ending in the unconditional `Other` fallback (line 154). -/
def categoryOfText (text : String) : String :=
  if strIncludes text "bitcoin" || strIncludes text "crypto" || strIncludes text "eth" ||
      strIncludes text "solana" || strIncludes text "coin" || strIncludes text "token" then
    CATEGORIES.CRYPTO
  else if strIncludes text "election" || strIncludes text "trump" || strIncludes text "biden" ||
      strIncludes text "senate" || strIncludes text "politics" || strIncludes text "vote" then
    CATEGORIES.POLITICS
  else if strIncludes text "nfl" || strIncludes text "nba" || strIncludes text "football" ||
      strIncludes text "soccer" || strIncludes text "sport" || strIncludes text "f1" ||
      strIncludes text "ufc" then
    CATEGORIES.SPORTS
  else if strIncludes text "stock" || strIncludes text "fed" || strIncludes text "rate" ||
      strIncludes text "recession" || strIncludes text "economy" || strIncludes text "business" ||
      strIncludes text "price" then
    CATEGORIES.BUSINESS
  else if strIncludes text "science" || strIncludes text "space" || strIncludes text "nasa" ||
      strIncludes text "apple" || strIncludes text "gpt" || strIncludes text "ai " ||
      strIncludes text "tech" then
    CATEGORIES.SCIENCE
  else if strIncludes text "movie" || strIncludes text "music" || strIncludes text "song" ||
      strIncludes text "grammy" || strIncludes text "oscar" || strIncludes text "celebrity" ||
      strIncludes text "spotify" then
    CATEGORIES.POPCULTURE
  else if strIncludes text "war" || strIncludes text "weather" || strIncludes text "climate" ||
      strIncludes text "news" || strIncludes text "global" then
    CATEGORIES.NEWS
  else
    CATEGORIES.OTHER

/-- `detectCategory` (lines 143–155): classify a market by its text. -/
def detectCategory (m : Market) : String :=
  categoryOfText (marketText m)

/-- The keyword lists of each rule, in source order (lines 146–152). -/
def cryptoKeywords : List String := ["bitcoin", "crypto", "eth", "solana", "coin", "token"]

def politicsKeywords : List String := ["election", "trump", "biden", "senate", "politics", "vote"]

def sportsKeywords : List String := ["nfl", "nba", "football", "soccer", "sport", "f1", "ufc"]

def businessKeywords : List String := ["stock", "fed", "rate", "recession", "economy", "business", "price"]

def scienceKeywords : List String := ["science", "space", "nasa", "apple", "gpt", "ai ", "tech"]

def popCultureKeywords : List String := ["movie", "music", "song", "grammy", "oscar", "celebrity", "spotify"]

def newsKeywords : List String := ["war", "weather", "climate", "news", "global"]

/-- Every keyword of every rule. -/
def allKeywords : List String :=
  cryptoKeywords ++ politicsKeywords ++ sportsKeywords ++ businessKeywords ++
    scienceKeywords ++ popCultureKeywords ++ newsKeywords

/-- The classifier's rule table: topics paired with their keyword sets, in
evaluation order, `Other` being the fallback when no rule fires. -/
def ruleTable : List (String × List String) :=
  [(CATEGORIES.CRYPTO, cryptoKeywords),
   (CATEGORIES.POLITICS, politicsKeywords),
   (CATEGORIES.SPORTS, sportsKeywords),
   (CATEGORIES.BUSINESS, businessKeywords),
   (CATEGORIES.SCIENCE, scienceKeywords),
   (CATEGORIES.POPCULTURE, popCultureKeywords),
   (CATEGORIES.NEWS, newsKeywords)]

/-- A rule fires on `text` when one of its keywords occurs as a substring. -/
def ruleFires (text : String) (r : String × List String) : Bool :=
  r.2.any (fun kw => strIncludes text kw)

/-! ## Seen-set tracker and poll-and-diff loop (lines 31–33, 158–194) -/

/-- The process state: the `seenMarkets` set (modelled as the insertion-order
list of its elements) and the `firstRun` flag (lines 32–33). -/
structure BotState where
  seenMarkets : List String
  firstRun : Bool
deriving DecidableEq, Repr

/-- `seenMarkets.add(i)`: insert `i` if absent, keeping insertion order. -/
def addSeen (seen : List String) (i : String) : List String :=
  if i ∈ seen then seen else seen ++ [i]

/-- Outcome of one upstream HTTP request: a response whose `data` field may
be missing, or a thrown error carrying a message. -/
def FetchOutcome := Except String (Option (List Market))

/-- `fetchMarkets` (lines 158–173): unwrap `response.data || []` on success
and catch any error, returning the empty list for the cycle. -/
def fetchMarkets (outcome : FetchOutcome) : List Market :=
  match outcome with
  | Except.ok d => d.getD []
  | Except.error _ => []

/-- The steady-state diff loop of lines 187–193: walk the fetched list,
skip markets already seen, and otherwise mark seen then emit the alert.
Returns the final seen list and the markets alerted, in order. -/
def processSteady : List Market → List String → List String × List Market
  | [], seen => (seen, [])
  | m :: ms, seen =>
    if m.id ∈ seen then
      processSteady ms seen
    else
      let r := processSteady ms (addSeen seen m.id)
      (r.1, m :: r.2)

/-- `monitorMarkets` (lines 176–194) as a state transformer: given the
fetched market list and the current state, return the next state and the
list of markets for which `sendAlert` is invoked, in invocation order. -/
def monitorMarkets (markets : List Market) (st : BotState) : BotState × List Market :=
  if st.firstRun then
    (⟨markets.foldl (fun s m => addSeen s m.id) st.seenMarkets, false⟩, [])
  else
    let r := processSteady markets st.seenMarkets
    (⟨r.1, false⟩, r.2)

/-! ## Preference store (lines 36, 49–63) and toggle handler (lines 120–140)

A JavaScript object with string keys is modelled as an association list in
insertion order: reading an absent key yields `undefined`, which is falsy,
so `getPref` defaults to `false`; assignment overwrites the existing entry
in place or appends a new one. -/

/-- A subscriber's preference record: the JavaScript object keyed by
category name. -/
abbrev Prefs := List (String × Bool)

/-- `prefs[k]` read under boolean coercion (`undefined` is falsy). -/
def getPref : Prefs → String → Bool
  | [], _ => false
  | (k', v') :: rest, k => if k' = k then v' else getPref rest k

/-- `prefs[k] = v`: overwrite the entry for `k` in place, or append it. -/
def setPref : Prefs → String → Bool → Prefs
  | [], k, v => [(k, v)]
  | (k', v') :: rest, k, v =>
    if k' = k then (k, v) :: rest else (k', v') :: setPref rest k v

/-- `prefs[category] = !prefs[category]` (line 129). -/
def togglePref (p : Prefs) (category : String) : Prefs :=
  setPref p category (! getPref p category)

/-- The record created on a subscriber's first interaction (lines 51–60):
all eight categories enabled. -/
def defaultPrefs : Prefs :=
  [(CATEGORIES.POLITICS, true), (CATEGORIES.CRYPTO, true),
   (CATEGORIES.SPORTS, true), (CATEGORIES.BUSINESS, true),
   (CATEGORIES.SCIENCE, true), (CATEGORIES.POPCULTURE, true),
   (CATEGORIES.NEWS, true), (CATEGORIES.OTHER, true)]

/-- The `userPrefs` map: subscriber chat id to preference record. -/
abbrev PrefsMap := List (Int × Prefs)

/-- `getUserPrefs` (lines 49–63): look up a chat's record, creating the
default record on first interaction.  Returns the updated map and the
record. -/
def getUserPrefs (m : PrefsMap) (chatId : Int) : PrefsMap × Prefs :=
  match m.lookup chatId with
  | some p => (m, p)
  | none => (m ++ [(chatId, defaultPrefs)], defaultPrefs)

/-! ## Alert router (`sendAlert`, lines 197–232)

Delivery outcomes are an oracle `deliverOk : Int → Bool`; the `try`/`catch`
around each `bot.sendMessage` (lines 222–229) records a failure and
continues the loop, so the broadcast visits every enabled subscriber
regardless of earlier outcomes. -/

/-- `sendAlert` (lines 219–231): the delivery attempts of one broadcast, in
map order — one attempt per subscriber whose preference for the market's
category is enabled, paired with that attempt's outcome. -/
def sendAlert (deliverOk : Int → Bool) (prefsMap : PrefsMap) (m : Market) :
    List (Int × Bool) :=
  let category := detectCategory m
  (prefsMap.filter (fun e => getPref e.2 category)).map
    (fun e => (e.1, deliverOk e.1))

/-- One full poll cycle: diff, then route each newly found market.  Returns
the next state and, per alerted market, its delivery attempts. -/
def runCycle (deliverOk : Int → Bool) (prefsMap : PrefsMap)
    (markets : List Market) (st : BotState) :
    BotState × List (Market × List (Int × Bool)) :=
  let r := monitorMarkets markets st
  (r.1, r.2.map (fun m => (m, sendAlert deliverOk prefsMap m)))

/-! ## Lemmas about the seen-set and the diff loop -/

@[simp]
theorem mem_addSeen {seen : List String} {i x : String} :
    x ∈ addSeen seen i ↔ x ∈ seen ∨ x = i := by
  by_cases h : i ∈ seen
  · simp only [addSeen, if_pos h]
    exact ⟨Or.inl, fun hx => hx.elim id (fun he => he ▸ h)⟩
  · simp [addSeen, if_neg h]

theorem subset_addSeen (seen : List String) (i : String) : seen ⊆ addSeen seen i :=
  fun _ hx => mem_addSeen.mpr (Or.inl hx)

theorem mem_addSeen_self (seen : List String) (i : String) : i ∈ addSeen seen i :=
  mem_addSeen.mpr (Or.inr rfl)

theorem subset_foldl_addSeen (ms : List Market) :
    ∀ seen : List String, seen ⊆ ms.foldl (fun s m => addSeen s m.id) seen := by
  induction ms with
  | nil => intro seen; simp
  | cons m ms ih =>
    intro seen x hx
    exact ih (addSeen seen m.id) (subset_addSeen seen m.id hx)

theorem mem_foldl_addSeen (ms : List Market) :
    ∀ seen : List String, ∀ m ∈ ms, m.id ∈ ms.foldl (fun s m => addSeen s m.id) seen := by
  induction ms with
  | nil => intro seen m hm; simp at hm
  | cons m' ms ih =>
    intro seen m hm
    rcases List.mem_cons.mp hm with h | h
    · subst h
      exact subset_foldl_addSeen ms (addSeen seen m.id)
        (mem_addSeen_self seen m.id)
    · exact ih (addSeen seen m'.id) m h

theorem processSteady_seen_subset (ms : List Market) :
    ∀ seen : List String, seen ⊆ (processSteady ms seen).1 := by
  induction ms with
  | nil => intro seen; simp [processSteady]
  | cons m ms ih =>
    intro seen x hx
    unfold processSteady
    split
    · exact ih seen hx
    · exact ih (addSeen seen m.id) (subset_addSeen seen m.id hx)

theorem processSteady_alerts_not_seen (ms : List Market) :
    ∀ seen : List String, ∀ a ∈ (processSteady ms seen).2, a.id ∉ seen := by
  induction ms with
  | nil => intro seen a ha; simp [processSteady] at ha
  | cons m ms ih =>
    intro seen a ha
    unfold processSteady at ha
    split at ha
    · exact ih seen a ha
    · rcases List.mem_cons.mp ha with h | h
      · subst h; assumption
      · intro hsa
        exact ih (addSeen seen m.id) a h (subset_addSeen seen m.id hsa)

theorem processSteady_alerts_nodup (ms : List Market) :
    ∀ seen : List String, ((processSteady ms seen).2.map (fun a => a.id)).Nodup := by
  induction ms with
  | nil => intro seen; simp [processSteady]
  | cons m ms ih =>
    intro seen
    unfold processSteady
    split
    · exact ih seen
    · refine List.nodup_cons.mpr ⟨?_, ih (addSeen seen m.id)⟩
      intro hmem
      obtain ⟨a, ha, hid⟩ := List.mem_map.mp hmem
      exact processSteady_alerts_not_seen ms (addSeen seen m.id) a ha
        (hid ▸ mem_addSeen_self seen m.id)

theorem processSteady_alerts_marked (ms : List Market) :
    ∀ seen : List String, ∀ a ∈ (processSteady ms seen).2,
      a.id ∈ (processSteady ms seen).1 := by
  induction ms with
  | nil => intro seen a ha; simp [processSteady] at ha
  | cons m ms ih =>
    intro seen a ha
    unfold processSteady at ha ⊢
    split at ha
    · rename_i h
      rw [if_pos h]
      exact ih seen a ha
    · rename_i h
      rw [if_neg h]
      rcases List.mem_cons.mp ha with hh | hh
      · subst hh
        exact processSteady_seen_subset ms (addSeen seen a.id)
          (mem_addSeen_self seen a.id)
      · exact ih (addSeen seen m.id) a hh

theorem processSteady_fresh (ms : List Market) :
    ∀ seen : List String, (∀ m ∈ ms, m.id ∉ seen) →
      (ms.map (fun m => m.id)).Nodup → (processSteady ms seen).2 = ms := by
  induction ms with
  | nil => intro seen _ _; simp [processSteady]
  | cons m ms ih =>
    intro seen hfresh hnd
    unfold processSteady
    rw [if_neg (hfresh m (List.mem_cons_self m ms))]
    rw [List.map_cons] at hnd
    have hnd' := List.nodup_cons.mp hnd
    have htail : ∀ m' ∈ ms, m'.id ∉ addSeen seen m.id := by
      intro m' hm' hmem
      rcases mem_addSeen.mp hmem with h | h
      · exact hfresh m' (List.mem_cons_of_mem m hm') h
      · exact hnd'.1 (h ▸ List.mem_map_of_mem (fun a => a.id) hm')
    simp [ih (addSeen seen m.id) htail hnd'.2]

/-! ## Concrete example markets used by witnesses -/

/-- The end-to-end example of §8 of the spec: a Bitcoin market. -/
def mBtc : Market := ⟨"1", "bitcoin price surge", none, none, none, none⟩

/-- A Fed-rates market (classifies as Business). -/
def mFed : Market := ⟨"2", "Will the Fed cut rates?", none, none, none, none⟩

/-- A market matching no keyword rule. -/
def mPlain : Market := ⟨"3", "Will it happen?", none, none, none, none⟩

/-! ## C1 — baseline suppression -/

/-- C1: during the first poll cycle after process start, no alert is
emitted for any fetched entity, and afterwards every fetched entity's
identifier is in the seen-set. -/
theorem baseline_suppression (markets : List Market) (st : BotState)
    (h : st.firstRun = true) :
    (monitorMarkets markets st).2 = [] ∧
    ∀ m ∈ markets, m.id ∈ (monitorMarkets markets st).1.seenMarkets := by
  unfold monitorMarkets
  rw [if_pos h]
  exact ⟨rfl, fun m hm => mem_foldl_addSeen markets st.seenMarkets m hm⟩

/-- Witness for C1 at the initial state and a one-market fetch. -/
theorem baseline_suppression_witness :
    (BotState.mk [] true).firstRun = true ∧
    ((monitorMarkets [mBtc] ⟨[], true⟩).2 = [] ∧
      ∀ m ∈ [mBtc], m.id ∈ (monitorMarkets [mBtc] ⟨[], true⟩).1.seenMarkets) :=
  ⟨rfl, baseline_suppression [mBtc] ⟨[], true⟩ rfl⟩

/-! ## C2 — at-most-once alerting -/

/-- C2: in the steady state, no alert is emitted for an identifier already
in the seen-set, the identifiers alerted in one cycle are pairwise
distinct, every alerted identifier is marked seen by the cycle that
alerted it, and the seen-set only grows — so each identifier is reported
as new at most once for the process lifetime. -/
theorem at_most_once_alerting (markets : List Market) (st : BotState)
    (h : st.firstRun = false) :
    (∀ a ∈ (monitorMarkets markets st).2, a.id ∉ st.seenMarkets) ∧
    ((monitorMarkets markets st).2.map (fun a => a.id)).Nodup ∧
    (∀ a ∈ (monitorMarkets markets st).2,
      a.id ∈ (monitorMarkets markets st).1.seenMarkets) ∧
    st.seenMarkets ⊆ (monitorMarkets markets st).1.seenMarkets := by
  unfold monitorMarkets
  rw [h]
  simp only [Bool.false_eq_true, if_false]
  exact ⟨processSteady_alerts_not_seen markets st.seenMarkets,
    processSteady_alerts_nodup markets st.seenMarkets,
    processSteady_alerts_marked markets st.seenMarkets,
    processSteady_seen_subset markets st.seenMarkets⟩

/-- Witness for C2: a steady-state cycle re-fetching the already-seen
market `mBtc` together with the fresh market `mFed`. -/
theorem at_most_once_alerting_witness :
    (BotState.mk ["1"] false).firstRun = false ∧
    ((∀ a ∈ (monitorMarkets [mBtc, mFed] ⟨["1"], false⟩).2, a.id ∉ ["1"]) ∧
      ((monitorMarkets [mBtc, mFed] ⟨["1"], false⟩).2.map (fun a => a.id)).Nodup ∧
      (∀ a ∈ (monitorMarkets [mBtc, mFed] ⟨["1"], false⟩).2,
        a.id ∈ (monitorMarkets [mBtc, mFed] ⟨["1"], false⟩).1.seenMarkets) ∧
      (["1"] : List String) ⊆ (monitorMarkets [mBtc, mFed] ⟨["1"], false⟩).1.seenMarkets) :=
  ⟨rfl, at_most_once_alerting [mBtc, mFed] ⟨["1"], false⟩ rfl⟩

/-! ## C6 — fetch-failure recovery -/

/-- C6: when the upstream fetch throws, the fetch yields the empty list,
the cycle emits no alerts, and the seen-set is unchanged. -/
theorem fetch_failure_recovery (e : String) (st : BotState) :
    fetchMarkets (Except.error e) = [] ∧
    (monitorMarkets (fetchMarkets (Except.error e)) st).2 = [] ∧
    (monitorMarkets (fetchMarkets (Except.error e)) st).1.seenMarkets =
      st.seenMarkets := by
  refine ⟨rfl, ?_, ?_⟩ <;>
    · by_cases h : st.firstRun <;>
        simp [monitorMarkets, fetchMarkets, processSteady, h]

/-! ## C9 — a failed first cycle still leaves an empty baseline -/

/-- C9: a first cycle whose fetch fails transitions the tracker to the
steady state with an empty seen-set, so every market of the next
successful fetch (with its pairwise-distinct identifiers) is alerted —
including markets that existed upstream before process start. -/
theorem empty_first_cycle_steady (e : String) :
    monitorMarkets (fetchMarkets (Except.error e)) ⟨[], true⟩ =
      (⟨[], false⟩, []) ∧
    ∀ ms : List Market, (ms.map (fun m => m.id)).Nodup →
      (monitorMarkets ms
        (monitorMarkets (fetchMarkets (Except.error e)) ⟨[], true⟩).1).2 = ms := by
  refine ⟨rfl, ?_⟩
  intro ms hnd
  show (monitorMarkets ms ⟨[], false⟩).2 = ms
  unfold monitorMarkets
  simp only [Bool.false_eq_true, if_false]
  exact processSteady_fresh ms [] (by simp) hnd

/-- Witness for C9: after the failed first cycle, a fetch returning
`[mBtc, mFed]` alerts both markets. -/
theorem empty_first_cycle_steady_witness :
    (([mBtc, mFed].map (fun m => m.id)).Nodup) ∧
    (monitorMarkets [mBtc, mFed]
      (monitorMarkets (fetchMarkets (Except.error "timeout")) ⟨[], true⟩).1).2 =
      [mBtc, mFed] :=
  ⟨by decide, (empty_first_cycle_steady "timeout").2 [mBtc, mFed] (by decide)⟩

/-! ## Lemmas about the classifier -/

/-- The keyword cascade equals a first-match scan of the rule table:
the classifier returns the topic of the first rule (in table order) with a
matching keyword, and `Other` when none fires. -/
theorem categoryOfText_eq_find (t : String) :
    categoryOfText t =
      ((ruleTable.find? (fun r => ruleFires t r)).map Prod.fst).getD CATEGORIES.OTHER := by
  unfold categoryOfText ruleTable
  simp only [List.find?, ruleFires, cryptoKeywords, politicsKeywords, sportsKeywords,
    businessKeywords, scienceKeywords, popCultureKeywords, newsKeywords,
    List.any_cons, List.any_nil, Bool.or_false]
  split_ifs with h1 h2 h3 h4 h5 h6 h7 <;>
    simp_all only [Bool.or_assoc, Bool.not_eq_true] <;> rfl

/-- A crypto keyword in the text forces the first rule to fire. -/
theorem categoryOfText_crypto (t : String)
    (h : ∃ kw ∈ cryptoKeywords, strIncludes t kw = true) :
    categoryOfText t = CATEGORIES.CRYPTO := by
  obtain ⟨kw, hkw, hinc⟩ := h
  unfold categoryOfText
  have hc : (strIncludes t "bitcoin" || strIncludes t "crypto" || strIncludes t "eth" ||
      strIncludes t "solana" || strIncludes t "coin" || strIncludes t "token") = true := by
    simp only [cryptoKeywords, List.mem_cons, List.not_mem_nil, or_false] at hkw
    rcases hkw with rfl | rfl | rfl | rfl | rfl | rfl <;> simp [hinc]
  rw [if_pos hc]

/-- When no keyword at all occurs in the text, no rule of the table fires. -/
theorem find_none_of_no_keyword (t : String)
    (h : ∀ kw ∈ allKeywords, strIncludes t kw = false) :
    ruleTable.find? (fun r => ruleFires t r) = none := by
  rw [List.find?_eq_none]
  intro r hr
  simp only [ruleTable, List.mem_cons, List.not_mem_nil, or_false] at hr
  rcases hr with rfl | rfl | rfl | rfl | rfl | rfl | rfl <;>
    · intro hfire
      simp only [ruleFires, List.any_eq_true] at hfire
      obtain ⟨kw, hkw, hinc⟩ := hfire
      have hfalse := h kw (by simp [allKeywords]; tauto)
      simp [hfalse] at hinc

/-! ## C3 — classifier rule precedence -/

/-- C3: the classifier scans the rules in the fixed order Crypto, Politics,
Sports, Business, Science, Pop Culture, News (`ruleTable`), returning the
topic of the first rule with a matching keyword and `Other` otherwise; a
crypto keyword therefore always wins, and the text "bitcoin price surge" —
which contains the Crypto keyword "bitcoin" and the Business keyword
"price" — classifies as Crypto, not Business. -/
theorem classifier_precedence :
    (∀ m : Market, detectCategory m =
      ((ruleTable.find? (fun r => ruleFires (marketText m) r)).map Prod.fst).getD
        CATEGORIES.OTHER) ∧
    (∀ m : Market, (∃ kw ∈ cryptoKeywords, strIncludes (marketText m) kw = true) →
      detectCategory m = CATEGORIES.CRYPTO) ∧
    ("bitcoin" ∈ cryptoKeywords ∧ "price" ∈ businessKeywords) ∧
    (strIncludes (marketText mBtc) "bitcoin" = true ∧
      strIncludes (marketText mBtc) "price" = true) ∧
    detectCategory mBtc = CATEGORIES.CRYPTO := by
  refine ⟨fun m => categoryOfText_eq_find (marketText m),
    fun m h => categoryOfText_crypto (marketText m) h, by decide, by decide, by decide⟩

/-- Witness for C3: the crypto-dominance clause applied to the concrete
"bitcoin price surge" market. -/
theorem classifier_precedence_witness :
    detectCategory mBtc = CATEGORIES.CRYPTO :=
  classifier_precedence.2.1 mBtc ⟨"bitcoin", by decide, by decide⟩

/-! ## C4 — classify is total and deterministic -/

/-- C4: the classifier always returns one of the 8 fixed topics, depends
only on the prepared text (so identical text fields give identical
topics), and returns "Other" when the text contains no keyword of any
rule. -/
theorem classify_total_deterministic :
    (∀ m : Market, detectCategory m ∈ allCategories) ∧
    (∀ m₁ m₂ : Market, marketText m₁ = marketText m₂ →
      detectCategory m₁ = detectCategory m₂) ∧
    (∀ m : Market, (∀ kw ∈ allKeywords, strIncludes (marketText m) kw = false) →
      detectCategory m = CATEGORIES.OTHER) := by
  refine ⟨?_, ?_, ?_⟩
  · intro m
    unfold detectCategory categoryOfText
    split_ifs <;> decide
  · intro m₁ m₂ h
    unfold detectCategory
    rw [h]
  · intro m h
    show categoryOfText (marketText m) = CATEGORIES.OTHER
    rw [categoryOfText_eq_find, find_none_of_no_keyword (marketText m) h]
    rfl

/-- Witness for C4 at a market whose text matches no keyword. -/
theorem classify_total_deterministic_witness :
    (∀ kw ∈ allKeywords, strIncludes (marketText mPlain) kw = false) ∧
    detectCategory mPlain = CATEGORIES.OTHER :=
  ⟨by decide, classify_total_deterministic.2.2 mPlain (by decide)⟩

/-! ## Lemmas about the alert router and the preference store -/

/-- The subscribers attempted by a broadcast are the enabled ones, in map
order, regardless of delivery outcomes. -/
theorem sendAlert_map_fst (f : Int → Bool) (ps : PrefsMap) (m : Market) :
    (sendAlert f ps m).map Prod.fst =
      (ps.filter (fun e => getPref e.2 (detectCategory m))).map Prod.fst := by
  simp [sendAlert, List.map_map, Function.comp]

/-- `togglePref` leaves a record entry with a different key untouched. -/
theorem togglePref_cons_ne {k' k : String} (h : k' ≠ k) (v' : Bool) (rest : Prefs) :
    togglePref ((k', v') :: rest) k = (k', v') :: togglePref rest k := by
  simp [togglePref, getPref, setPref, h]

/-- Writing key `k` never changes the value read at a different key `t`. -/
theorem getPref_setPref_ne (p : Prefs) (k t : String) (v : Bool) (hne : k ≠ t) :
    getPref (setPref p k v) t = getPref p t := by
  induction p with
  | nil => simp [setPref, getPref, hne]
  | cons e rest ih =>
    obtain ⟨k', v'⟩ := e
    by_cases h : k' = k
    · subst h
      simp [setPref, getPref, hne]
    · simp only [setPref, if_neg h]
      by_cases h2 : k' = t <;> simp [getPref, h2, ih]

/-! ## C5 — routing exactness and per-subscriber failure isolation -/

/-- C5: a broadcast attempts delivery to exactly the subscribers whose
record enables the market's topic (membership clause); the attempted
subscriber list does not depend on the delivery-outcome oracle, so a
failure at one subscriber never prevents the attempt at another
(independence clause); with distinct subscriber ids each enabled
subscriber is attempted exactly once, never retried (no-retry clause);
and the cycle's resulting seen-set state is that of the diff loop alone,
untouched by delivery outcomes (frame clause). -/
theorem routing_exactness_isolation :
    (∀ (f : Int → Bool) (ps : PrefsMap) (m : Market) (c : Int),
      c ∈ (sendAlert f ps m).map Prod.fst ↔
        ∃ p : Prefs, (c, p) ∈ ps ∧ getPref p (detectCategory m) = true) ∧
    (∀ (f g : Int → Bool) (ps : PrefsMap) (m : Market),
      (sendAlert f ps m).map Prod.fst = (sendAlert g ps m).map Prod.fst) ∧
    (∀ (f : Int → Bool) (ps : PrefsMap) (m : Market),
      (ps.map Prod.fst).Nodup → ((sendAlert f ps m).map Prod.fst).Nodup) ∧
    (∀ (f : Int → Bool) (ps : PrefsMap) (ms : List Market) (st : BotState),
      (runCycle f ps ms st).1 = (monitorMarkets ms st).1) := by
  refine ⟨?_, ?_, ?_, fun f ps ms st => rfl⟩
  · intro f ps m c
    rw [sendAlert_map_fst]
    simp only [List.mem_map, List.mem_filter]
    constructor
    · rintro ⟨⟨a, b⟩, ⟨hmem, hq⟩, rfl⟩
      exact ⟨b, hmem, hq⟩
    · rintro ⟨p, hmem, hp⟩
      exact ⟨(c, p), ⟨hmem, hp⟩, rfl⟩
  · intro f g ps m
    rw [sendAlert_map_fst, sendAlert_map_fst]
  · intro f ps m hnd
    rw [sendAlert_map_fst]
    exact hnd.sublist ((List.filter_sublist ps).map Prod.fst)

/-- Witness for C5: two subscribers, delivery failing for the first,
still yields one attempt per enabled subscriber. -/
theorem routing_exactness_isolation_witness :
    (([((1 : Int), defaultPrefs), (2, defaultPrefs)].map Prod.fst).Nodup) ∧
    ((sendAlert (fun c => decide (c = 2))
      [((1 : Int), defaultPrefs), (2, defaultPrefs)] mFed).map Prod.fst).Nodup :=
  ⟨by decide, routing_exactness_isolation.2.2.1 (fun c => decide (c = 2))
    [((1 : Int), defaultPrefs), (2, defaultPrefs)] mFed (by decide)⟩

/-! ## C7 — preference toggle involution and default -/

/-- C7: toggling a key present in a preference record twice restores the
record exactly; the record created on first interaction is `defaultPrefs`,
which enables all 8 topics. -/
theorem toggle_involution_default :
    (∀ (p : Prefs) (k : String), k ∈ p.map Prod.fst →
      togglePref (togglePref p k) k = p) ∧
    (∀ chatId : Int, (getUserPrefs [] chatId).2 = defaultPrefs) ∧
    (∀ t ∈ allCategories, getPref defaultPrefs t = true) := by
  refine ⟨?_, fun chatId => rfl, by decide⟩
  intro p k
  induction p with
  | nil => intro hk; simp at hk
  | cons e rest ih =>
    obtain ⟨k', v'⟩ := e
    intro hk
    by_cases h : k' = k
    · subst h
      simp [togglePref, getPref, setPref]
    · have hk' : k ∈ rest.map Prod.fst := by
        rw [List.map_cons, List.mem_cons] at hk
        rcases hk with h1 | h1
        · exact absurd h1.symm h
        · exact h1
      rw [togglePref_cons_ne h, togglePref_cons_ne h, ih hk']

/-- Witness for C7: toggling Crypto twice on the default record. -/
theorem toggle_involution_default_witness :
    (CATEGORIES.CRYPTO ∈ defaultPrefs.map Prod.fst) ∧
    togglePref (togglePref defaultPrefs CATEGORIES.CRYPTO) CATEGORIES.CRYPTO =
      defaultPrefs :=
  ⟨by decide, toggle_involution_default.1 defaultPrefs CATEGORIES.CRYPTO (by decide)⟩

/-! ## C8 — toggling an unrecognized topic is frame-preserving -/

/-- C8: toggling any string outside the fixed 8-topic enumeration leaves
the value of every fixed topic flag in the record unchanged (the write
touches only its own stray key). -/
theorem toggle_unrecognized_frame (p : Prefs) (s : String)
    (hs : s ∉ allCategories) :
    ∀ t ∈ allCategories, getPref (togglePref p s) t = getPref p t := by
  intro t ht
  exact getPref_setPref_ne p s t (! getPref p s) (fun hst => hs (by rw [hst]; exact ht))

/-- Witness for C8: toggling the unknown key "Bogus" on the default
record. -/
theorem toggle_unrecognized_frame_witness :
    ("Bogus" ∉ allCategories) ∧
    ∀ t ∈ allCategories,
      getPref (togglePref defaultPrefs "Bogus") t = getPref defaultPrefs t :=
  ⟨by decide, toggle_unrecognized_frame defaultPrefs "Bogus" (by decide)⟩

/-! ## C10 — classification reads only question, group and tags -/

/-- C10: two markets agreeing on `question`, `group` and `tags` classify
identically whatever their `id`, `slug` or `title`; in particular a market
whose only text sits in `title` is classified (as Other) without the title
being consulted. -/
theorem classify_field_independence :
    (∀ m₁ m₂ : Market, m₁.question = m₂.question → m₁.group = m₂.group →
      m₁.tags = m₂.tags → detectCategory m₁ = detectCategory m₂) ∧
    detectCategory ⟨"t9", "", none, none, none, some "bitcoin to 100k"⟩ =
      CATEGORIES.OTHER := by
  constructor
  · intro m₁ m₂ hq hg ht
    unfold detectCategory marketText
    rw [hq, hg, ht]
  · decide

/-- Two markets equal on the classified fields, different elsewhere. -/
def mTexted : Market := ⟨"a", "bitcoin up", none, none, none, none⟩

/-- Same classified fields as `mTexted`, different id, slug and title. -/
def mDecorated : Market := ⟨"b", "bitcoin up", none, none, some "s", some "other title"⟩

/-- Witness for C10 at two concrete markets differing only in
unclassified fields. -/
theorem classify_field_independence_witness :
    detectCategory mTexted = detectCategory mDecorated :=
  classify_field_independence.1 mTexted mDecorated rfl rfl rfl
